import Mathlib

/-!
Verification of the skaffold dev-loop engine against its specification.

The Go sources are shallowly embedded: pure functions become Lean functions,
the stateful dev loop becomes explicit state passing over scripted builder and
deployer outcomes, Go maps become association lists, processes become pids
tracked in an explicit alive set, and Go panics and returned errors become
Option/Except values.
-/

deriving instance DecidableEq for Except

namespace Skaffold

/-! ## Build artifacts and merging (runner: kaniko.go, package runner) -/

/-- Embeds build.Artifact: a build result with the image name and the tag the
builder produced for it. -/
structure BuildArtifact where
  imageName : String
  tag : String
deriving Repr, DecidableEq

/-- Embeds mergeWithPreviousBuilds from the runner: the new builds come first,
then every previous build whose image name was not rebuilt. The Go code builds
a set of updated image names and filters previous through it. -/
def mergeWithPreviousBuilds (builds previous : List BuildArtifact) : List BuildArtifact :=
  builds ++ previous.filter (fun b => !(builds.any (fun nb => nb.imageName == b.imageName)))

/-! ## File matching and the sync predicate (runner: kaniko.go, package runner) -/

/-- The suffixes a star wildcard can leave behind: the text itself and every
suffix reached by consuming leading non-separator characters. -/
def starSuffixes : List Char → List (List Char)
  | [] => [[]]
  | c :: cs => (c :: cs) :: (if c = '/' then [] else starSuffixes cs)

/-- Embeds Go path/filepath.Match restricted to literal characters, the
star wildcard (any run of non-separator characters) and the question-mark
wildcard (one non-separator character). Character classes and backslash
escapes, the only sources of ErrBadPattern, are outside the fragment used
here, so this model is total and never errors. The star case enumerates the
runs it could consume, which keeps the recursion structural on the pattern. -/
def globMatch : List Char → List Char → Bool
  | [], f => f.isEmpty
  | '*' :: ps, f => (starSuffixes f).any (fun rest => globMatch ps rest)
  | '?' :: ps, c :: cs => decide (c ≠ '/') && globMatch ps cs
  | '?' :: _, [] => false
  | p :: ps, c :: cs => p == c && globMatch ps cs
  | _ :: _, [] => false

/-- Pattern matching on whole strings, the form used by the sync predicate. -/
def filePathMatch (pattern file : String) : Bool :=
  globMatch pattern.data file.data

/-- Embeds the runner helper named match (a reserved word in Lean): it returns
true iff every file matches every pattern. Note the inner loop returns false
as soon as one pattern fails on one file, and an empty pattern list accepts
every file vacuously. The ErrBadPattern error path cannot fire on the glob
fragment modelled by filePathMatch. -/
def matchFiles (patterns files : List String) : Bool :=
  files.all (fun f => patterns.all (fun p => filePathMatch p f))

/-- Modelled from the spec: the watch package file that declares WatchEvents
is not among the sources. Per the spec a WatchEvents value carries the added,
modified and deleted path sets of one tick diff. -/
structure WatchEvents where
  added : List String
  modified : List String
  deleted : List String
deriving Repr, DecidableEq

/-- Modelled from the spec: HasChanged is declared outside the given sources;
per the spec a handler fires on a non-empty diff, so HasChanged holds iff one
of the three path sets is non-empty. -/
def WatchEvents.HasChanged (e : WatchEvents) : Bool :=
  !(e.added.isEmpty && e.modified.isEmpty && e.deleted.isEmpty)

/-- Embeds shouldSync from the runner: no change means no sync; otherwise the
added and modified files must satisfy matchFiles, then the deleted files must
satisfy matchFiles. -/
def shouldSync (syncPatterns : List String) (e : WatchEvents) : Bool :=
  if !e.HasChanged then false
  else
    let copyFiles := e.added ++ e.modified
    if !matchFiles syncPatterns copyFiles then false
    else if !matchFiles syncPatterns e.deleted then false
    else true

/-! ## The dev-loop state machine (runner: kaniko.go Dev/onChange, watch: watchList.Run) -/

/-- Embeds the fields of v1alpha3.Artifact that the dev loop consults: the
image name and the ordered sync pattern list. -/
structure Artifact where
  imageName : String
  sync : List String
deriving Repr, DecidableEq

/-- Modelled from the spec: the changes struct of package runner is used by
Dev and onChange but its declaring file is not among the sources. Per the
spec the accumulator carries the dirty artifact set and the redeploy and
reload booleans, reset after every tick. Add appends the artifact and reset
returns the empty accumulator. -/
structure Changes where
  dirtyArtifacts : List Artifact
  needsRedeploy : Bool
  needsReload : Bool
deriving Repr, DecidableEq

/-- Modelled from the spec: the empty accumulator that changed.reset restores
after each tick. -/
def Changes.empty : Changes := ⟨[], false, false⟩

/-- Modelled from the spec: changed.Add places the artifact in the dirty set. -/
def Changes.add (c : Changes) (a : Artifact) : Changes :=
  { c with dirtyArtifacts := c.dirtyArtifacts ++ [a] }

/-- One handler firing during a tick: which registered component saw a diff.
Dev registers one handler per watched artifact, one for the deployer
dependencies and one for the skaffold configuration file. -/
inductive TickEvent where
  | artifact (a : Artifact) (e : WatchEvents)
  | deployerConfig
  | skaffoldConfig
deriving Repr, DecidableEq

/-- Observable actions of the dev loop, in order: they record the arguments
of each builder, deployer and syncer call, the warn-level skip messages, and
the stopping of the log aggregator. -/
inductive Action where
  | build (artifacts : List Artifact)
  | deploy (builds : List BuildArtifact)
  | syncCopy (image : String) (files : List String)
  | syncDelete (image : String) (files : List String)
  | warnSkip
  | stopLogger
deriving Repr, DecidableEq

/-- Errors with which Dev can return. The configurationChanged case embeds
the ErrorConfigurationChanged sentinel; the first-run cases embed the wrapped
errors of the first build and the first deploy. -/
inductive DevError where
  | firstBuildFailed
  | firstDeployFailed
  | configurationChanged
deriving Repr, DecidableEq

/-- The runner state threaded through the loop: the latest-known build table
r.builds plus scripted outcomes for the builder and the deployer, consumed
one per call exactly like the TestBuilder and TestDeployer of the runner
tests consume their error lists. An exhausted script means further calls
succeed, the builder then returning no results. -/
structure RunnerState where
  builds : List BuildArtifact
  buildScript : List (Except Unit (List BuildArtifact))
  deployScript : List (Except Unit Unit)
deriving Repr, DecidableEq

/-- Consumes one scripted builder outcome (a Build call). -/
def RunnerState.popBuild (r : RunnerState) : RunnerState × Except Unit (List BuildArtifact) :=
  match r.buildScript with
  | [] => (r, .ok [])
  | o :: rest => ({ r with buildScript := rest }, o)

/-- Consumes one scripted deployer outcome (a Deploy call). -/
def RunnerState.popDeploy (r : RunnerState) : RunnerState × Except Unit Unit :=
  match r.deployScript with
  | [] => (r, .ok ())
  | o :: rest => ({ r with deployScript := rest }, o)

/-- Embeds the per-artifact watch handler registered by Dev: when shouldSync
accepts the event the syncer copies the added and modified files and deletes
the deleted files inline and the artifact stays out of the dirty set;
otherwise changed.Add is called. The other two handlers set the redeploy and
reload flags. -/
def processEvent (changed : Changes) : TickEvent → Changes × List Action
  | .artifact a e =>
      if shouldSync a.sync e then
        (changed, [.syncCopy a.imageName (e.added ++ e.modified), .syncDelete a.imageName e.deleted])
      else
        (changed.add a, [])
  | .deployerConfig => ({ changed with needsRedeploy := true }, [])
  | .skaffoldConfig => ({ changed with needsReload := true }, [])

/-- Embeds updateBuiltImages: the freshly built tags join the image list and
r.builds becomes the merge of the new results over the previous table. The
image list membership is not itself consulted by any claim, so only the
builds table is threaded here. -/
def updateBuiltImages (builds : List BuildArtifact) (bRes : List BuildArtifact) : List BuildArtifact :=
  mergeWithPreviousBuilds bRes builds

/-- Embeds the switch of Dev.onChange, the final per-tick callback: reload
beats dirty artifacts beats redeploy; a build error logs a warning and skips
the deploy without failing the tick; a deploy error likewise warns without
failing the tick; reload stops the log aggregator and returns the sentinel. -/
def onChange (r : RunnerState) (changed : Changes) :
    RunnerState × List Action × Option DevError :=
  if changed.needsReload then
    (r, [.stopLogger], some .configurationChanged)
  else if changed.dirtyArtifacts.length > 0 then
    match r.popBuild with
    | (r1, .error _) => (r1, [.build changed.dirtyArtifacts, .warnSkip], none)
    | (r1, .ok bRes) =>
        let r2 := { r1 with builds := updateBuiltImages r1.builds bRes }
        match r2.popDeploy with
        | (r3, .error _) =>
            (r3, [.build changed.dirtyArtifacts, .deploy r2.builds, .warnSkip], none)
        | (r3, .ok _) =>
            (r3, [.build changed.dirtyArtifacts, .deploy r2.builds], none)
  else if changed.needsRedeploy then
    match r.popDeploy with
    | (r1, .error _) => (r1, [.deploy r.builds, .warnSkip], none)
    | (r1, .ok _) => (r1, [.deploy r.builds], none)
  else
    (r, [], none)

/-- Folds the fired handlers of one tick in registration order, accumulating
the change state and the inline sync actions. -/
def processEvents (acc : Changes × List Action) (events : List TickEvent) :
    Changes × List Action :=
  events.foldl (fun acc ev =>
    let r := processEvent acc.1 ev
    (r.1, acc.2 ++ r.2)) acc

/-- Embeds one tick of watchList.Run inside Dev: every fired handler runs in
registration order accumulating into changed, and when at least one fired the
final onChange callback runs once; afterwards the accumulator is reset by the
deferred changed.reset. An error from the final callback aborts the run. -/
def onTick (r : RunnerState) (events : List TickEvent) :
    RunnerState × List Action × Option DevError :=
  let folded := processEvents (Changes.empty, []) events
  if events.isEmpty then (r, folded.2, none)
  else
    let stepped := onChange r folded.1
    (stepped.1, folded.2 ++ stepped.2.1, stepped.2.2)

/-- Runs the poll loop over a finite tick schedule; the schedule running out
models context cancellation, which ends the run without error. -/
def runTicks (r : RunnerState) : List (List TickEvent) → List Action × Except DevError Unit
  | [] => ([], .ok ())
  | events :: rest =>
      match onTick r events with
      | (_, acts, some err) => (acts, .error err)
      | (r1, acts, none) =>
          let (acts2, res) := runTicks r1 rest
          (acts ++ acts2, res)

/-- Embeds Dev: the first build and first deploy run before the watch loop
starts and their errors are returned, wrapped, exiting dev mode; then the
loop processes ticks until cancellation or an escaping error. The trace of
actions is returned beside the outcome. -/
def dev (artifacts : List Artifact) (ticks : List (List TickEvent))
    (buildScript : List (Except Unit (List BuildArtifact)))
    (deployScript : List (Except Unit Unit)) : List Action × Except DevError Unit :=
  let r0 : RunnerState := ⟨[], buildScript, deployScript⟩
  match r0.popBuild with
  | (_, .error _) => ([.build artifacts], .error .firstBuildFailed)
  | (r1, .ok bRes) =>
      let r2 := { r1 with builds := updateBuiltImages r1.builds bRes }
      match r2.popDeploy with
      | (_, .error _) => ([.build artifacts, .deploy r2.builds], .error .firstDeployFailed)
      | (r3, .ok _) =>
          let (acts, res) := runTicks r3 ticks
          ([.build artifacts, .deploy r2.builds] ++ acts, res)

/-! ## Image references and the manifest transformer (deploy: kustomize.go) -/

/-- Parsed image reference: the fields consulted by the transformer. -/
structure ImageReference where
  baseName : String
  fullyQualified : Bool
deriving Repr, DecidableEq

/-- Splits a character list on a separator character; the list of parts is
never empty and keeps empty parts, like String.splitOn. -/
def splitOnChar (c : Char) : List Char → List (List Char)
  | [] => [[]]
  | x :: xs =>
      let r := splitOnChar c xs
      if x = c then [] :: r
      else
        match r with
        | [] => [[x]]
        | s :: rest => (x :: s) :: rest

/-- Modelled from the spec: docker.ParseReference is not among the sources.
Per the spec a reference splits into base name and optional tag or digest;
it is fully qualified iff it carries a digest or an explicit tag other than
latest. The tag separator is the last colon of the last slash-separated
segment, so a registry port is not mistaken for a tag. Empty names, empty
components and several at-signs fail to parse. -/
def parseReference (s : String) : Option ImageReference :=
  match splitOnChar '@' s.data with
  | [name] =>
      let lastSeg := (splitOnChar '/' name).getLastD []
      match splitOnChar ':' lastSeg with
      | [_] => if name.isEmpty then none else some ⟨⟨name⟩, false⟩
      | [seg, tag] =>
          if seg.isEmpty || tag.isEmpty then none
          else some ⟨⟨name.take (name.length - (tag.length + 1))⟩, (⟨tag⟩ : String) != "latest"⟩
      | _ => none
  | [name, digest] =>
      if name.isEmpty || digest.isEmpty then none else some ⟨⟨name⟩, true⟩
  | _ => none

mutual

/-- Generic YAML tree, the target of yaml.Unmarshal into nested interface
values: scalars, sequences and mappings whose keys are themselves values.
The three mutual types make the recursion of the transformer structural. -/
inductive Yaml where
  | str (s : String)
  | intVal (n : Int)
  | boolVal (b : Bool)
  | null
  | seq (items : YamlList)
  | map (entries : YamlMap)

/-- Sequence node contents. -/
inductive YamlList where
  | nil
  | cons (hd : Yaml) (tl : YamlList)

/-- Mapping node contents: key and value pairs in document order. -/
inductive YamlMap where
  | nil
  | cons (k v : Yaml) (tl : YamlMap)

end

deriving instance DecidableEq for Yaml
deriving instance DecidableEq for YamlList
deriving instance DecidableEq for YamlMap

/-- Number of entries of a mapping node, the len the transformer uses to
elide empty documents. -/
def YamlMap.length : YamlMap → Nat
  | .nil => 0
  | .cons _ _ tl => tl.length + 1

/-- Embeds the replacements table: built from the build results with later
results overwriting earlier ones exactly as Go map assignment does (the fold
conses later entries to the front and lookup takes the first hit). Only the
tag field is modelled; the found flag drives a warning and nothing else. -/
def buildReplacements (builds : List BuildArtifact) : List (String × String) :=
  builds.foldl (fun acc b => (b.imageName, b.tag) :: acc) []

/-- Lookup in the replacements table. -/
def lookupTag (repl : List (String × String)) (base : String) : Option String :=
  (repl.find? (fun p => p.fst == base)).map (fun p => p.snd)

/-- Embeds the image-key case of recursiveReplaceImage: a value under an
image key that is not a string makes the Go type assertion on the value
panic (none); an unparseable reference is skipped with a warning; a fully
qualified reference is skipped; a base-name hit substitutes the tag. -/
def replaceImageValue (repl : List (String × String)) : Yaml → Option Yaml
  | .str image =>
      match parseReference image with
      | none => some (.str image)
      | some parsed =>
          if parsed.fullyQualified then some (.str image)
          else
            match lookupTag repl parsed.baseName with
            | some tag => some (.str tag)
            | none => some (.str image)
  | _ => none

mutual

/-- Embeds recursiveReplaceImage on a node: sequences and mappings recurse,
any other node is left as is. The Option threads the panics of the two Go
type assertions. -/
def replaceYaml (repl : List (String × String)) : Yaml → Option Yaml
  | .seq items => (replaceList repl items).map .seq
  | .map entries => (replaceMap repl entries).map .map
  | y => some y
termination_by structural y => y

/-- Embeds recursiveReplaceImage over the items of a sequence node. -/
def replaceList (repl : List (String × String)) : YamlList → Option YamlList
  | .nil => some .nil
  | .cons hd tl => do
      let hd2 ← replaceYaml repl hd
      let tl2 ← replaceList repl tl
      pure (.cons hd2 tl2)
termination_by structural l => l

/-- Embeds the entry loop of recursiveReplaceImage over a mapping node. A
key that is not a string makes the type assertion on the key panic (none);
an image key dispatches to replaceImageValue without recursing into the
value; every other entry recurses into its value. -/
def replaceMap (repl : List (String × String)) : YamlMap → Option YamlMap
  | .nil => some .nil
  | .cons k v tl =>
      match k with
      | .str ks =>
          if ks = "image" then do
            let v2 ← replaceImageValue repl v
            let tl2 ← replaceMap repl tl
            pure (.cons k v2 tl2)
          else do
            let v2 ← replaceYaml repl v
            let tl2 ← replaceMap repl tl
            pure (.cons k v2 tl2)
      | _ => none
termination_by structural m => m

end

/-- One document of a manifest list as handed to yaml.Unmarshal: either
bytes that unmarshal into a mapping, or bytes that fail to unmarshal (which
includes well-formed YAML whose top level is not a mapping). -/
inductive YamlDoc where
  | parsed (m : YamlMap)
  | invalid

/-- Outcomes with which a transformation pass can fail: the wrapped
yaml.Unmarshal error that replaceImages returns, and a runtime panic of one
of the two type assertions inside recursiveReplaceImage. -/
inductive TransformError where
  | unmarshalError
  | panicked
deriving Repr, DecidableEq

/-- Embeds the document loop of manifestList.replaceImages over an already
built replacements table: an unmarshal failure returns an error, an empty
mapping is elided, and otherwise the recursive walk rewrites the document. -/
def replaceImagesAux (repl : List (String × String)) :
    List YamlDoc → Except TransformError (List YamlMap)
  | [] => .ok []
  | .invalid :: _ => .error .unmarshalError
  | .parsed m :: rest =>
      if m.length = 0 then replaceImagesAux repl rest
      else
        match replaceMap repl m with
        | none => .error .panicked
        | some m2 => (replaceImagesAux repl rest).map (fun ms => m2 :: ms)

/-- Embeds manifestList.replaceImages: builds the replacements table from the
build results and transforms each document. -/
def replaceImages (l : List YamlDoc) (builds : List BuildArtifact) :
    Except TransformError (List YamlMap) :=
  replaceImagesAux (buildReplacements builds) l

/-! ## Spec-side statement of the transformer, for the refinement claims -/

/-- Written from the spec words, for comparison with the code transformer:
the substitution applied to one image value. A value that parses as a
non-fully-qualified reference whose base name is in the replacement set
becomes the target tag; every other value is unchanged. -/
def specReplaceValue (repl : List (String × String)) (s : String) : String :=
  match parseReference s with
  | none => s
  | some parsed =>
      if parsed.fullyQualified then s
      else
        match lookupTag repl parsed.baseName with
        | some tag => tag
        | none => s

mutual

/-- Written from the spec words: the recursive walk substituting image
values, total over every tree. -/
def specYaml (repl : List (String × String)) : Yaml → Yaml
  | .seq items => .seq (specList repl items)
  | .map entries => .map (specMap repl entries)
  | y => y
termination_by structural y => y

/-- Written from the spec words: the walk over a sequence node. -/
def specList (repl : List (String × String)) : YamlList → YamlList
  | .nil => .nil
  | .cons hd tl => .cons (specYaml repl hd) (specList repl tl)
termination_by structural l => l

/-- Written from the spec words: the walk over a mapping node; string values
under an image key are substituted, other values under an image key are
skipped, and every other entry recurses. -/
def specMap (repl : List (String × String)) : YamlMap → YamlMap
  | .nil => .nil
  | .cons (.str "image") (.str s) tl =>
      .cons (.str "image") (.str (specReplaceValue repl s)) (specMap repl tl)
  | .cons (.str "image") v tl => .cons (.str "image") v (specMap repl tl)
  | .cons k v tl => .cons k (specYaml repl v) (specMap repl tl)
termination_by structural m => m

end

/-- Written from the spec words: a transformation pass over a manifest list
keeps the documents that unmarshal to non-empty mappings, in order, each
rewritten by the walk. -/
def specTransformDocs (repl : List (String × String)) (l : List YamlDoc) : List YamlMap :=
  l.filterMap (fun d =>
    match d with
    | .parsed m => if m.length = 0 then none else some (specMap repl m)
    | .invalid => none)

/-! ## Shape predicate under which the code transformer cannot fail -/

mutual

/-- Holds of trees whose mapping keys are all strings and whose image values
are all strings: exactly the trees on which the two type assertions of
recursiveReplaceImage cannot panic. -/
def wfYaml : Yaml → Bool
  | .seq items => wfList items
  | .map entries => wfMap entries
  | _ => true
termination_by structural y => y

/-- Shape predicate over sequence nodes. -/
def wfList : YamlList → Bool
  | .nil => true
  | .cons hd tl => wfYaml hd && wfList tl
termination_by structural l => l

/-- Shape predicate over mapping nodes. -/
def wfMap : YamlMap → Bool
  | .nil => true
  | .cons (.str "image") v tl =>
      (match v with
       | .str _ => true
       | _ => false) && wfMap tl
  | .cons (.str _) v tl => wfYaml v && wfMap tl
  | .cons _ _ _ => false
termination_by structural m => m

end

/-! ## The port-forwarder (package kubernetes, PortForwarder) -/

/-- One container of a pod spec: its name and declared container ports. -/
structure PodContainer where
  name : String
  ports : List Nat
deriving Repr, DecidableEq

/-- The pod fields consulted by portForwardPod. The resource version is kept
numeric; the strconv.Atoi error path of the code is out of the model. -/
structure Pod where
  name : String
  resourceVersion : Nat
  containers : List PodContainer
deriving Repr, DecidableEq

/-- Embeds portForwardEntry: the generation, pod, container and port of one
forward, plus the pid standing for the kubectl port-forward subprocess the
cmd field holds. -/
structure PortForwardEntry where
  resourceVersion : Nat
  podName : String
  containerName : String
  port : Nat
  pid : Nat
deriving Repr, DecidableEq

/-- Embeds portForwardEntry.key: containerName dash port. -/
def entryKey (containerName : String) (port : Nat) : String :=
  containerName ++ "-" ++ toString port

/-- Key of an entry. -/
def PortForwardEntry.key (e : PortForwardEntry) : String :=
  entryKey e.containerName e.port

/-- The forwarder state: the forwardedPods sync.Map as an association list
in insertion order, the set of live subprocess pids, a fresh-pid counter, and
the log of every spawned forward (key and pid) used to phrase per-key
aliveness. -/
structure PFState where
  forwardedPods : List (String × PortForwardEntry)
  alive : List Nat
  nextPid : Nat
  spawned : List (String × Nat)
deriving Repr, DecidableEq

/-- Empty forwarder state. -/
def PFState.empty : PFState := ⟨[], [], 0, []⟩

/-- sync.Map.Load. -/
def mapLoad (m : List (String × PortForwardEntry)) (k : String) : Option PortForwardEntry :=
  (m.find? (fun p => p.fst == k)).map (fun p => p.snd)

/-- sync.Map.Store: binds the key to the value, dropping any previous
binding. A sync.Map does not promise an iteration order, so the new binding
simply goes last. -/
def mapStore (m : List (String × PortForwardEntry)) (k : String) (v : PortForwardEntry) :
    List (String × PortForwardEntry) :=
  m.filter (fun p => !(p.fst == k)) ++ [(k, v)]

/-- Embeds portForwardEntry.stop: SIGTERM the subprocess, removing its pid
from the alive set. -/
def pfStop (st : PFState) (e : PortForwardEntry) : PFState :=
  { st with alive := st.alive.filter (fun pid => pid ≠ e.pid) }

/-- Embeds portForwardEntry.forward: the entry is stored under its key and
the kubectl port-forward subprocess is started, its fresh pid joining the
alive set and the spawn log. -/
def pfForward (st : PFState) (e : PortForwardEntry) : PFState :=
  { st with
    forwardedPods := mapStore st.forwardedPods e.key e
    alive := st.alive ++ [e.pid]
    spawned := st.spawned ++ [(e.key, e.pid)] }

/-- Embeds the body of portForwardPod for one container port: build the new
entry; when the key is present and the new generation is strictly newer stop
the previous entry first; then forward the new entry unconditionally. -/
def portForwardOne (pod : Pod) (c : PodContainer) (port : Nat) (st : PFState) : PFState :=
  let entry : PortForwardEntry :=
    { resourceVersion := pod.resourceVersion
      podName := pod.name
      containerName := c.name
      port := port
      pid := st.nextPid }
  let st1 :=
    match mapLoad st.forwardedPods (entryKey c.name port) with
    | some prevEntry =>
        if entry.resourceVersion > prevEntry.resourceVersion then pfStop st prevEntry else st
    | none => st
  let st2 := pfForward st1 { entry with pid := st1.nextPid }
  { st2 with nextPid := st2.nextPid + 1 }

/-- Embeds PortForwarder.portForwardPod: the double loop over the containers
of the pod and their ports. -/
def portForwardPod (st : PFState) (pod : Pod) : PFState :=
  pod.containers.foldl
    (fun st c => c.ports.foldl (fun st port => portForwardOne pod c port st) st) st

/-- Embeds PortForwarder.cleanupPorts: a sync.Map.Range whose callback stops
the visited entry and then returns false, which ends the iteration, so at
most the first entry in range order is stopped. -/
def cleanupPorts (st : PFState) : PFState :=
  match st.forwardedPods with
  | [] => st
  | (_, e) :: _ => pfStop st e

/-- Pids spawned for a given key that are still alive: the subprocesses the
uniqueness invariant counts. -/
def alivePidsForKey (st : PFState) (k : String) : List Nat :=
  (st.spawned.filter (fun p => p.fst == k && st.alive.contains p.snd)).map (fun p => p.snd)

/-! ## The post-deploy labeler (runner/label/label.go) -/

/-- Association-list map standing for a Go map of string to string; insertion
updates in place or appends, matching Go map assignment up to iteration
order. -/
def insertLabel (m : List (String × String)) (k v : String) : List (String × String) :=
  if m.any (fun p => p.fst == k) then
    m.map (fun p => if p.fst == k then (k, v) else p)
  else
    m ++ [(k, v)]

/-- Inserts every pair of src into dst, the shape of every label-copy loop in
the labeler. -/
def insertAll (dst src : List (String × String)) : List (String × String) :=
  src.foldl (fun acc p => insertLabel acc p.fst p.snd) dst

/-- Modelled from the spec: constants.Labels.DefaultLabels is declared
outside the given sources; per the spec the fixed default labels are a single
namespace label marking objects as deployed by skaffold. Its exact key and
value are immaterial to the claims, only that it is a fixed non-empty map. -/
def defaultLabels : List (String × String) := [("deployed-with", "skaffold")]

/-- The fields of one deploy result consulted by updateRuntimeObject: whether
the runtime object is of one of the kinds the type switch knows, the labels
of its object meta, and whether the API-server update call errors. -/
structure DeployResult where
  known : Bool
  objLabels : List (String × String)
  updateFails : Bool
deriving Repr, DecidableEq

/-- Embeds updateRuntimeObject: the fixed default labels are first written
into the caller-supplied labels map itself; a known object then receives
every label on its meta through addSkaffoldLabels and is updated, an unknown
object is skipped with a nil error. Returns the mutated labels map, the
mutated object and whether err was nil. -/
def updateRuntimeObject (labels : List (String × String)) (res : DeployResult) :
    List (String × String) × DeployResult × Bool :=
  let labels2 := insertAll labels defaultLabels
  if res.known then
    (labels2, { res with objLabels := insertAll res.objLabels labels2 }, !res.updateFails)
  else
    (labels2, res, true)

/-- Embeds the retry loop of ApplyLabelDeployResults for one result: up to
three tries of updateRuntimeObject, stopping on the first nil error, the
labels map threading through every try. -/
def labelTries (labels : List (String × String)) (res : DeployResult) :
    Nat → List (String × String) × DeployResult
  | 0 => (labels, res)
  | n + 1 =>
      match updateRuntimeObject labels res with
      | (labels2, res2, true) => (labels2, res2)
      | (labels2, res2, false) => labelTries labels2 res2 n

/-- Embeds ApplyLabelDeployResults: for every deploy result the labeler
retries updateRuntimeObject up to three times; the caller-owned labels map is
threaded through every call and returned so the mutation the caller observes
can be stated. The kubernetes-client error path, which touches nothing, is
out of the model. -/
def applyLabelDeployResults (labels : List (String × String))
    (results : List DeployResult) : List (String × String) :=
  results.foldl (fun lbls res => (labelTries lbls res 3).fst) labels

/-! ## Theorems about the sync classifier (claim C1) -/

/-- C1: evaluation of the classifier where the code diverges from the claim.
With empty sync patterns and one modified file the code reports a sync and
the handler copies the file instead of marking the artifact dirty, although
the claim requires a non-empty pattern list for a sync; and with two patterns
a modification of index.html, which matches the first pattern, is classified
dirty by the code although the claim calls every-path-matches-some-pattern a
sync. Both divergences come from the inner loop of the match helper, which
demands that every file match every pattern and accepts everything when the
pattern list is empty. -/
theorem shouldSync_divergence_eval :
    shouldSync [] ⟨[], ["main.go"], []⟩ = true ∧
    processEvent Changes.empty (.artifact ⟨"app", []⟩ ⟨[], ["main.go"], []⟩) =
      (Changes.empty, [.syncCopy "app" ["main.go"], .syncDelete "app" []]) ∧
    shouldSync ["*.html", "static/*"] ⟨[], ["index.html"], []⟩ = false ∧
    filePathMatch "*.html" "index.html" = true ∧
    (processEvent Changes.empty
        (.artifact ⟨"app2", ["*.html", "static/*"]⟩ ⟨[], ["index.html"], []⟩)).1.dirtyArtifacts =
      [⟨"app2", ["*.html", "static/*"]⟩] := by decide

/-! ## Theorems about the port-forwarder (claims C6 and C7) -/

/-- C6 counterexample: two modified events for the same pod generation. The
second event finds the stored entry, does not terminate it because the
resource version is not strictly greater, and still starts a second forward,
after which two subprocesses for the key c-80 are alive and the stored entry
was replaced by one with an equal, not strictly greater, resource version. -/
theorem portForward_duplicate_event_counterexample :
    (alivePidsForKey
        (portForwardPod (portForwardPod PFState.empty ⟨"p", 5, [⟨"c", [80]⟩]⟩)
          ⟨"p", 5, [⟨"c", [80]⟩]⟩)
        (entryKey "c" 80)).length = 2 ∧
    mapLoad (portForwardPod PFState.empty ⟨"p", 5, [⟨"c", [80]⟩]⟩).forwardedPods
        (entryKey "c" 80) = some ⟨5, "p", "c", 80, 0⟩ ∧
    mapLoad
        (portForwardPod (portForwardPod PFState.empty ⟨"p", 5, [⟨"c", [80]⟩]⟩)
          ⟨"p", 5, [⟨"c", [80]⟩]⟩).forwardedPods
        (entryKey "c" 80) = some ⟨5, "p", "c", 80, 1⟩ := by decide

/-- C7: evaluation of cleanupPorts on a table of two forwards, both alive.
The range callback returns false after the first entry, so only pid 1 is
terminated and the subprocess of the second entry, pid 2, stays alive. -/
theorem cleanupPorts_stops_only_first_entry :
    cleanupPorts
        ⟨[("c-80", ⟨5, "p1", "c", 80, 1⟩), ("d-81", ⟨5, "p2", "d", 81, 2⟩)], [1, 2], 3,
          [("c-80", 1), ("d-81", 2)]⟩ =
      ⟨[("c-80", ⟨5, "p1", "c", 80, 1⟩), ("d-81", ⟨5, "p2", "d", 81, 2⟩)], [2], 3,
        [("c-80", 1), ("d-81", 2)]⟩ := by decide

/-! ## Counterexamples about the manifest transformer (claims C5 and C9) -/

/-- C5 counterexample: two manifest shapes on which the pass fails. A
document that does not unmarshal makes replaceImages return the wrapped
unmarshal error rather than skipping it, and a non-string value under an
image key makes the type assertion of the walk panic. -/
theorem replaceImages_shape_failure_counterexample :
    replaceImages [.invalid] [] = .error .unmarshalError ∧
    replaceImages [.parsed (.cons (.str "image") (.intVal 3) .nil)] [] =
      .error .panicked := by decide

/-- C9 counterexample: with the replacement set sending a to b and b to c,
the document image: a transforms once to image: b, and transforming that
output again yields image: c, so the second application changes the bytes. -/
theorem replaceImages_not_idempotent_counterexample :
    replaceImages [.parsed (.cons (.str "image") (.str "a") .nil)] [⟨"a", "b"⟩, ⟨"b", "c"⟩] =
      .ok [.cons (.str "image") (.str "b") .nil] ∧
    replaceImages [.parsed (.cons (.str "image") (.str "b") .nil)] [⟨"a", "b"⟩, ⟨"b", "c"⟩] =
      .ok [.cons (.str "image") (.str "c") .nil] ∧
    Yaml.str "b" ≠ Yaml.str "c" := by decide

/-! ## Theorems about the post-deploy labeler (claim C10) -/

/-- Inserting the same key and value twice is the same as inserting once. -/
theorem insertLabel_idem (m : List (String × String)) (k v : String) :
    insertLabel (insertLabel m k v) k v = insertLabel m k v := by
  by_cases h : m.any (fun p => p.fst == k) = true
  · have hin : insertLabel m k v = m.map (fun p => if p.fst == k then (k, v) else p) := by
      rw [insertLabel, if_pos h]
    have h2 : ((m.map (fun p => if p.fst == k then (k, v) else p)).any
        (fun p => p.fst == k)) = true := by
      rcases List.any_eq_true.mp h with ⟨p, hp, hpk⟩
      exact List.any_eq_true.mpr ⟨(k, v), List.mem_map.mpr ⟨p, hp, by simp [hpk]⟩, by simp⟩
    rw [hin, insertLabel, if_pos h2, List.map_map]
    refine List.map_congr_left (fun p _ => ?_)
    by_cases hpk : (p.fst == k) = true
    · simp [Function.comp, hpk]
    · simp [Function.comp, hpk]
  · have hfalse : m.any (fun p => p.fst == k) = false := by
      cases hx : m.any (fun p => p.fst == k)
      · rfl
      · exact absurd hx h
    have hall := List.any_eq_false.mp hfalse
    have hin : insertLabel m k v = m ++ [(k, v)] := by rw [insertLabel, if_neg h]
    have h2 : ((m ++ [(k, v)]).any (fun p => p.fst == k)) = true :=
      List.any_eq_true.mpr ⟨(k, v), by simp, by simp⟩
    have hm : m.map (fun p => if p.fst == k then (k, v) else p) = m := by
      have hg := List.map_congr_left (l := m)
        (f := fun p => if p.fst == k then (k, v) else p) (g := id)
        (fun p hp => if_neg (hall p hp))
      simpa using hg
    rw [hin, insertLabel, if_pos h2, List.map_append, hm]
    simp

/-- Inserting the default labels is idempotent. -/
theorem insertAll_defaults_idem (m : List (String × String)) :
    insertAll (insertAll m defaultLabels) defaultLabels = insertAll m defaultLabels := by
  simp [insertAll, defaultLabels, insertLabel_idem]

/-- The labels component updateRuntimeObject returns: the caller map with the
default labels written into it, on every branch of the type switch. -/
theorem updateRuntimeObject_labels (labels : List (String × String)) (res : DeployResult) :
    (updateRuntimeObject labels res).1 = insertAll labels defaultLabels := by
  cases hk : res.known <;> simp [updateRuntimeObject, hk]

/-- After any positive number of tries the labels map holds the defaults. -/
theorem labelTries_labels : ∀ (n : Nat) (labels : List (String × String)) (res : DeployResult),
    (labelTries labels res (n + 1)).1 = insertAll labels defaultLabels := by
  intro n
  induction n with
  | zero =>
      intro labels res
      rw [labelTries]
      cases hk : res.known <;> cases hf : res.updateFails <;>
        simp [updateRuntimeObject, hk, hf, labelTries]
  | succ n ih =>
      intro labels res
      rw [labelTries]
      cases hk : res.known <;> cases hf : res.updateFails <;>
        simp [updateRuntimeObject, hk, hf, ih, insertAll_defaults_idem]

/-- A labels map already holding the defaults is untouched by further
results. -/
theorem applyLabel_preserves_saturated :
    ∀ (results : List DeployResult) (labels : List (String × String)),
      insertAll labels defaultLabels = labels →
      applyLabelDeployResults labels results = labels := by
  intro results
  induction results with
  | nil => intro labels _; rfl
  | cons res rest ih =>
      intro labels hsat
      have hstep : (labelTries labels res 3).1 = labels := by
        rw [labelTries_labels 2 labels res, hsat]
      calc applyLabelDeployResults labels (res :: rest)
          = applyLabelDeployResults (labelTries labels res 3).1 rest := rfl
        _ = applyLabelDeployResults labels rest := by rw [hstep]
        _ = labels := ih labels hsat

/-- C10: the labeler mutates the caller-owned labels map. Before each object
update the fixed default labels are written into the very map the caller
passed, whose post-call value equals the original with the defaults inserted
whenever at least one deploy result is processed; when the default key was
absent the caller observes the map grow by one entry. -/
theorem applyLabelDeployResults_mutates_caller_labels (labels : List (String × String))
    (results : List DeployResult) (hne : results ≠ []) :
    (∀ res, (updateRuntimeObject labels res).1 = insertAll labels defaultLabels) ∧
    applyLabelDeployResults labels results = insertAll labels defaultLabels ∧
    ((∀ p ∈ labels, p.fst ≠ "deployed-with") →
      (applyLabelDeployResults labels results).length = labels.length + 1) := by
  obtain ⟨res, rest, rfl⟩ : ∃ res rest, results = res :: rest := by
    cases results with
    | nil => exact absurd rfl hne
    | cons res rest => exact ⟨res, rest, rfl⟩
  have hstep : (labelTries labels res 3).1 = insertAll labels defaultLabels :=
    labelTries_labels 2 labels res
  have hmain : applyLabelDeployResults labels (res :: rest) = insertAll labels defaultLabels := by
    calc applyLabelDeployResults labels (res :: rest)
        = applyLabelDeployResults (labelTries labels res 3).1 rest := rfl
      _ = applyLabelDeployResults (insertAll labels defaultLabels) rest := by rw [hstep]
      _ = insertAll labels defaultLabels :=
          applyLabel_preserves_saturated rest _ (insertAll_defaults_idem labels)
  refine ⟨fun r => updateRuntimeObject_labels labels r, hmain, fun habs => ?_⟩
  have hany : labels.any (fun p => p.fst == "deployed-with") = false := by
    refine List.any_eq_false.mpr (fun p hp => ?_)
    simpa using habs p hp
  rw [hmain]
  simp [insertAll, defaultLabels, insertLabel, hany]

/-- C10 witness: one known deploy result over a one-entry labels map. -/
theorem applyLabel_witness :
    ([(⟨true, [], false⟩ : DeployResult)] ≠ []) ∧
    ((∀ res, (updateRuntimeObject [("k", "v")] res).1 =
        insertAll [("k", "v")] defaultLabels) ∧
      applyLabelDeployResults [("k", "v")] [⟨true, [], false⟩] =
        insertAll [("k", "v")] defaultLabels ∧
      ((∀ p ∈ [("k", "v")], Prod.fst p ≠ "deployed-with") →
        (applyLabelDeployResults [("k", "v")] [⟨true, [], false⟩]).length =
          ([("k", "v")] : List (String × String)).length + 1)) :=
  ⟨by decide,
    applyLabelDeployResults_mutates_caller_labels [("k", "v")] [⟨true, [], false⟩] (by decide)⟩

/-! ## Theorems about build merging and the deploy set (claim C3) -/

/-- Membership in the merged build table: the new results, plus the previous
results whose image was not rebuilt. -/
theorem mem_mergeWithPreviousBuilds (builds previous : List BuildArtifact) (b : BuildArtifact) :
    b ∈ mergeWithPreviousBuilds builds previous ↔
      (b ∈ builds ∨ (b ∈ previous ∧ ∀ nb ∈ builds, nb.imageName ≠ b.imageName)) := by
  simp [mergeWithPreviousBuilds, List.mem_filter, List.any_eq_true]

/-- popBuild leaves the latest-known build table untouched. -/
theorem popBuild_builds (r : RunnerState) : r.popBuild.1.builds = r.builds := by
  rw [RunnerState.popBuild]
  cases r.buildScript <;> rfl

/-- The deploy call of a dirty tick with a successful build receives exactly
the merge of the fresh results over the previous table. -/
theorem onChange_deploy_arg (r : RunnerState) (changed : Changes) (r1 : RunnerState)
    (bRes : List BuildArtifact)
    (hrel : changed.needsReload = false) (hdirty : changed.dirtyArtifacts ≠ [])
    (hpop : r.popBuild = (r1, .ok bRes)) :
    Action.deploy (mergeWithPreviousBuilds bRes r.builds) ∈ (onChange r changed).2.1 := by
  have hlen : changed.dirtyArtifacts.length > 0 := List.length_pos.mpr hdirty
  have hr1 : r1.builds = r.builds := by
    have := popBuild_builds r
    rw [hpop] at this
    exact this
  rw [onChange, if_neg (by simp [hrel]), if_pos hlen, hpop]
  simp only [updateBuiltImages, hr1]
  split <;> simp

/-- C3: after a tick that builds the dirty artifacts, the list handed to the
deployer is the merge, keyed by image name, of this tick's results over the
previously known results: membership says a rebuilt image carries its new
tag and an image not rebuilt keeps its previous tag, and under unique image
names each image appears exactly once in the merge. -/
theorem buildSet_correctness (builds previous : List BuildArtifact)
    (hb : (builds.map (fun b => b.imageName)).Nodup)
    (hp : (previous.map (fun b => b.imageName)).Nodup) :
    (∀ b, b ∈ mergeWithPreviousBuilds builds previous ↔
        (b ∈ builds ∨ (b ∈ previous ∧ ∀ nb ∈ builds, nb.imageName ≠ b.imageName))) ∧
    ((mergeWithPreviousBuilds builds previous).map (fun b => b.imageName)).Nodup ∧
    (∀ (r : RunnerState) (changed : Changes) (r1 : RunnerState) (bRes : List BuildArtifact),
        changed.needsReload = false → changed.dirtyArtifacts ≠ [] →
        r.popBuild = (r1, .ok bRes) →
        Action.deploy (mergeWithPreviousBuilds bRes r.builds) ∈ (onChange r changed).2.1) := by
  refine ⟨mem_mergeWithPreviousBuilds builds previous, ?_, ?_⟩
  · rw [mergeWithPreviousBuilds, List.map_append]
    refine List.nodup_append.mpr ⟨hb, ?_, ?_⟩
    · exact hp.sublist ((List.filter_sublist _).map _)
    · intro name hn1 hn2
      rcases List.mem_map.mp hn2 with ⟨b, hbf, rfl⟩
      rcases List.mem_filter.mp hbf with ⟨_, hcond⟩
      rcases List.mem_map.mp hn1 with ⟨nb, hnb, hEq⟩
      have : builds.any (fun x => x.imageName == b.imageName) = true :=
        List.any_eq_true.mpr ⟨nb, hnb, by simp [hEq]⟩
      simp [this] at hcond
  · intro r changed r1 bRes hrel hdirty hpop
    exact onChange_deploy_arg r changed r1 bRes hrel hdirty hpop

/-- C3 witness: one rebuilt artifact over a two-artifact table, and a
concrete dirty tick. -/
theorem buildSet_correctness_witness :
    ((([⟨"a", "a2"⟩] : List BuildArtifact).map (fun b => b.imageName)).Nodup ∧
      (([⟨"a", "a1"⟩, ⟨"b", "b1"⟩] : List BuildArtifact).map (fun b => b.imageName)).Nodup) ∧
    ((∀ b, b ∈ mergeWithPreviousBuilds [⟨"a", "a2"⟩] [⟨"a", "a1"⟩, ⟨"b", "b1"⟩] ↔
        (b ∈ ([⟨"a", "a2"⟩] : List BuildArtifact) ∨
          (b ∈ ([⟨"a", "a1"⟩, ⟨"b", "b1"⟩] : List BuildArtifact) ∧
            ∀ nb ∈ ([⟨"a", "a2"⟩] : List BuildArtifact), nb.imageName ≠ b.imageName))) ∧
      ((mergeWithPreviousBuilds [⟨"a", "a2"⟩] [⟨"a", "a1"⟩, ⟨"b", "b1"⟩]).map
          (fun b => b.imageName)).Nodup ∧
      (∀ (r : RunnerState) (changed : Changes) (r1 : RunnerState) (bRes : List BuildArtifact),
          changed.needsReload = false → changed.dirtyArtifacts ≠ [] →
          r.popBuild = (r1, .ok bRes) →
          Action.deploy (mergeWithPreviousBuilds bRes r.builds) ∈ (onChange r changed).2.1)) :=
  ⟨⟨by decide, by decide⟩,
    buildSet_correctness [⟨"a", "a2"⟩] [⟨"a", "a1"⟩, ⟨"b", "b1"⟩] (by decide) (by decide)⟩

/-! ## Theorems about the first-run failure policy (claim C4) -/

/-- C4: an error of the very first build or the very first deploy exits dev
mode with that error, while a build or deploy error during a later tick makes
onChange log a warning and report success, and a tick reporting success lets
the loop keep processing the remaining ticks. -/
theorem dev_first_run_failure_policy :
    (∀ (artifacts : List Artifact) (ticks : List (List TickEvent))
        (rest : List (Except Unit (List BuildArtifact))) (ds : List (Except Unit Unit)),
        dev artifacts ticks (.error () :: rest) ds =
          ([.build artifacts], .error .firstBuildFailed)) ∧
    (∀ (artifacts : List Artifact) (ticks : List (List TickEvent))
        (bRes : List BuildArtifact) (bs : List (Except Unit (List BuildArtifact)))
        (rest : List (Except Unit Unit)),
        dev artifacts ticks (.ok bRes :: bs) (.error () :: rest) =
          ([.build artifacts, .deploy (mergeWithPreviousBuilds bRes [])],
            .error .firstDeployFailed)) ∧
    (∀ (r : RunnerState) (changed : Changes) (r1 : RunnerState),
        changed.needsReload = false → changed.dirtyArtifacts ≠ [] →
        r.popBuild = (r1, .error ()) →
        onChange r changed = (r1, [.build changed.dirtyArtifacts, .warnSkip], none)) ∧
    (∀ (r : RunnerState) (changed : Changes) (r1 r3 : RunnerState)
        (bRes : List BuildArtifact),
        changed.needsReload = false → changed.dirtyArtifacts ≠ [] →
        r.popBuild = (r1, .ok bRes) →
        ({ r1 with builds := updateBuiltImages r1.builds bRes } : RunnerState).popDeploy =
          (r3, .error ()) →
        (onChange r changed).2.2 = none) ∧
    (∀ (r : RunnerState) (changed : Changes) (r1 : RunnerState),
        changed.needsReload = false → changed.dirtyArtifacts = [] →
        changed.needsRedeploy = true → r.popDeploy = (r1, .error ()) →
        onChange r changed = (r1, [.deploy r.builds, .warnSkip], none)) ∧
    (∀ (r : RunnerState) (events : List TickEvent) (rest : List (List TickEvent))
        (r1 : RunnerState) (acts : List Action),
        onTick r events = (r1, acts, none) →
        runTicks r (events :: rest) =
          (acts ++ (runTicks r1 rest).1, (runTicks r1 rest).2)) := by
  refine ⟨fun artifacts ticks rest ds => rfl, fun artifacts ticks bRes bs rest => rfl,
    ?_, ?_, ?_, ?_⟩
  · intro r changed r1 hrel hdirty hpop
    have hlen : changed.dirtyArtifacts.length > 0 := List.length_pos.mpr hdirty
    rw [onChange, if_neg (by simp [hrel]), if_pos hlen, hpop]
  · intro r changed r1 r3 bRes hrel hdirty hpop hdep
    have hlen : changed.dirtyArtifacts.length > 0 := List.length_pos.mpr hdirty
    rw [onChange, if_neg (by simp [hrel]), if_pos hlen, hpop]
    dsimp only
    rw [hdep]
  · intro r changed r1 hrel hdirty hred hpop
    rw [onChange, if_neg (by simp [hrel]), if_neg (by simp [hdirty]), if_pos (by simp [hred]),
      hpop]
  · intro r events rest r1 acts h
    rw [runTicks, h]

/-- C4 witness: a first-build failure, a first-deploy failure, a dirty tick
whose build fails, a dirty tick whose deploy fails, a redeploy tick whose
deploy fails, and a succeeding tick followed by another tick. -/
theorem dev_first_run_failure_policy_witness :
    ((⟨[], [], []⟩ : RunnerState) = ⟨[], [], []⟩ ∧
      (⟨[⟨"img", []⟩], false, false⟩ : Changes).needsReload = false ∧
      (⟨[⟨"img", []⟩], false, false⟩ : Changes).dirtyArtifacts ≠ [] ∧
      (⟨[], [.error ()], []⟩ : RunnerState).popBuild = (⟨[], [], []⟩, .error ()) ∧
      (⟨[], [], [.error ()]⟩ : RunnerState).popDeploy = (⟨[], [], []⟩, .error ()) ∧
      onTick ⟨[], [], []⟩ [TickEvent.deployerConfig] =
        (⟨[], [], []⟩, [Action.deploy []], none)) ∧
    (dev [⟨"img", []⟩] [] [.error ()] [] = ([.build [⟨"img", []⟩]], .error .firstBuildFailed) ∧
      dev [⟨"img", []⟩] [] [.ok [⟨"img", "t1"⟩]] [.error ()] =
        ([.build [⟨"img", []⟩], .deploy (mergeWithPreviousBuilds [⟨"img", "t1"⟩] [])],
          .error .firstDeployFailed) ∧
      onChange ⟨[], [.error ()], []⟩ ⟨[⟨"img", []⟩], false, false⟩ =
        (⟨[], [], []⟩, [.build [⟨"img", []⟩], .warnSkip], none) ∧
      (onChange ⟨[], [.ok []], [.error ()]⟩ ⟨[⟨"img", []⟩], false, false⟩).2.2 = none ∧
      onChange ⟨[], [], [.error ()]⟩ ⟨[], true, false⟩ =
        (⟨[], [], []⟩, [.deploy [], .warnSkip], none) ∧
      runTicks ⟨[], [], []⟩ [[TickEvent.deployerConfig], []] =
        ([Action.deploy []] ++ (runTicks (⟨[], [], []⟩ : RunnerState) [[]]).1,
          (runTicks (⟨[], [], []⟩ : RunnerState) [[]]).2)) :=
  ⟨⟨rfl, by decide, by decide, by decide, by decide, by decide⟩,
    dev_first_run_failure_policy.1 [⟨"img", []⟩] [] [] [],
    dev_first_run_failure_policy.2.1 [⟨"img", []⟩] [] [⟨"img", "t1"⟩] [] [],
    dev_first_run_failure_policy.2.2.1 ⟨[], [.error ()], []⟩ ⟨[⟨"img", []⟩], false, false⟩
      ⟨[], [], []⟩ (by decide) (by decide) (by decide),
    dev_first_run_failure_policy.2.2.2.1 ⟨[], [.ok []], [.error ()]⟩
      ⟨[⟨"img", []⟩], false, false⟩ ⟨[], [], [.error ()]⟩ ⟨[], [], []⟩ [] (by decide) (by decide)
      (by decide) (by decide),
    dev_first_run_failure_policy.2.2.2.2.1 ⟨[], [], [.error ()]⟩ ⟨[], true, false⟩ ⟨[], [], []⟩
      (by decide) (by decide) (by decide) (by decide),
    dev_first_run_failure_policy.2.2.2.2.2 ⟨[], [], []⟩ [TickEvent.deployerConfig] [[]]
      ⟨[], [], []⟩ [Action.deploy []] (by decide)⟩

/-! ## Theorems about reload priority (claim C8) -/

/-- A handler firing never emits a build or deploy action: the only inline
actions are the syncer calls. -/
theorem processEvent_actions_sync (c : Changes) (ev : TickEvent) (a : Action)
    (h : a ∈ (processEvent c ev).2) :
    (∃ i f, a = .syncCopy i f) ∨ (∃ i f, a = .syncDelete i f) := by
  cases ev with
  | artifact art e =>
      by_cases hs : shouldSync art.sync e = true
      · simp [processEvent, hs] at h
        rcases h with h | h
        · exact Or.inl ⟨art.imageName, e.added ++ e.modified, h⟩
        · exact Or.inr ⟨art.imageName, e.deleted, h⟩
      · simp [processEvent, hs] at h
  | deployerConfig => simp [processEvent] at h
  | skaffoldConfig => simp [processEvent] at h

/-- One step of the handler fold. -/
theorem processEvents_cons (acc : Changes × List Action) (ev : TickEvent)
    (rest : List TickEvent) :
    processEvents acc (ev :: rest) =
      processEvents ((processEvent acc.1 ev).1, acc.2 ++ (processEvent acc.1 ev).2) rest := rfl

/-- No handler clears the reload flag once set. -/
theorem processEvents_needsReload_mono :
    ∀ (events : List TickEvent) (acc : Changes × List Action),
      acc.1.needsReload = true → (processEvents acc events).1.needsReload = true := by
  intro events
  induction events with
  | nil => intro acc h; exact h
  | cons ev rest ih =>
      intro acc h
      rw [processEvents_cons]
      refine ih _ ?_
      cases ev with
      | artifact art e =>
          by_cases hs : shouldSync art.sync e = true <;>
            simp [processEvent, hs, Changes.add, h]
      | deployerConfig => simp [processEvent, h]
      | skaffoldConfig => simp [processEvent]

/-- A tick containing the configuration-file event ends with the reload flag
set. -/
theorem processEvents_reload_of_mem :
    ∀ (events : List TickEvent) (acc : Changes × List Action),
      TickEvent.skaffoldConfig ∈ events →
      (processEvents acc events).1.needsReload = true := by
  intro events
  induction events with
  | nil => intro acc h; cases h
  | cons ev rest ih =>
      intro acc h
      rcases List.mem_cons.mp h with h | h
      · subst h
        rw [processEvents_cons]
        exact processEvents_needsReload_mono rest _ (by simp [processEvent])
      · rw [processEvents_cons]
        exact ih _ h

/-- Every action accumulated by the handler fold is either inherited from the
accumulator or a syncer call. -/
theorem processEvents_actions_sync :
    ∀ (events : List TickEvent) (acc : Changes × List Action) (a : Action),
      a ∈ (processEvents acc events).2 →
      a ∈ acc.2 ∨ (∃ i f, a = .syncCopy i f) ∨ (∃ i f, a = .syncDelete i f) := by
  intro events
  induction events with
  | nil => intro acc a h; exact Or.inl h
  | cons ev rest ih =>
      intro acc a h
      rw [processEvents_cons] at h
      rcases ih _ a h with h2 | h2 | h2
      · rcases List.mem_append.mp h2 with h3 | h3
        · exact Or.inl h3
        · exact Or.inr (processEvent_actions_sync acc.1 ev a h3)
      · exact Or.inr (Or.inl h2)
      · exact Or.inr (Or.inr h2)

/-- C8: on a tick whose events include the configuration-file change, the
reload action wins over dirty artifacts and redeploy: onChange returns the
configuration-changed sentinel after stopping the log aggregator, the tick
runs no build and no deploy, the runner state is untouched, and the loop
returns the sentinel to the caller. -/
theorem reload_priority :
    (∀ (r : RunnerState) (changed : Changes), changed.needsReload = true →
        onChange r changed = (r, [.stopLogger], some .configurationChanged)) ∧
    (∀ (r : RunnerState) (events : List TickEvent), events ≠ [] →
        TickEvent.skaffoldConfig ∈ events →
        (onTick r events).1 = r ∧
        (onTick r events).2.2 = some .configurationChanged ∧
        Action.stopLogger ∈ (onTick r events).2.1 ∧
        (∀ arts, Action.build arts ∉ (onTick r events).2.1) ∧
        (∀ bs, Action.deploy bs ∉ (onTick r events).2.1)) ∧
    (∀ (r : RunnerState) (events : List TickEvent) (rest : List (List TickEvent)),
        events ≠ [] → TickEvent.skaffoldConfig ∈ events →
        (runTicks r (events :: rest)).2 = .error .configurationChanged) := by
  have honchange : ∀ (r : RunnerState) (changed : Changes), changed.needsReload = true →
      onChange r changed = (r, [.stopLogger], some .configurationChanged) := by
    intro r changed h
    rw [onChange, if_pos h]
  have hontick : ∀ (r : RunnerState) (events : List TickEvent), events ≠ [] →
      TickEvent.skaffoldConfig ∈ events →
      onTick r events =
        (r, (processEvents (Changes.empty, []) events).2 ++ [.stopLogger],
          some .configurationChanged) := by
    intro r events hne hmem
    rw [onTick]
    have hrel := processEvents_reload_of_mem events (Changes.empty, []) hmem
    rw [if_neg (by simpa using hne)]
    rw [honchange r _ hrel]
  refine ⟨honchange, ?_, ?_⟩
  · intro r events hne hmem
    rw [hontick r events hne hmem]
    refine ⟨rfl, rfl, by simp, ?_, ?_⟩
    · intro arts hmem2
      simp only [List.mem_append, List.mem_singleton] at hmem2
      rcases hmem2 with h3 | h3
      · rcases processEvents_actions_sync events (Changes.empty, []) _ h3 with h4 | h4 | h4
        · cases h4
        · rcases h4 with ⟨i, f, h5⟩; cases h5
        · rcases h4 with ⟨i, f, h5⟩; cases h5
      · cases h3
    · intro bs hmem2
      simp only [List.mem_append, List.mem_singleton] at hmem2
      rcases hmem2 with h3 | h3
      · rcases processEvents_actions_sync events (Changes.empty, []) _ h3 with h4 | h4 | h4
        · cases h4
        · rcases h4 with ⟨i, f, h5⟩; cases h5
        · rcases h4 with ⟨i, f, h5⟩; cases h5
      · cases h3
  · intro r events rest hne hmem
    rw [runTicks, hontick r events hne hmem]

/-- C8 witness: a tick carrying a dirty artifact event, a redeploy event and
the configuration-file event, over a runner whose scripts would allow a build
and a deploy. -/
theorem reload_priority_witness :
    (((⟨[], [.ok []], [.ok ()]⟩ : RunnerState) = ⟨[], [.ok []], [.ok ()]⟩) ∧
      (⟨[], false, true⟩ : Changes).needsReload = true ∧
      ([TickEvent.artifact ⟨"img", []⟩ ⟨[], [], []⟩, .deployerConfig, .skaffoldConfig] :
        List TickEvent) ≠ [] ∧
      TickEvent.skaffoldConfig ∈
        ([TickEvent.artifact ⟨"img", []⟩ ⟨[], [], []⟩, .deployerConfig, .skaffoldConfig] :
          List TickEvent)) ∧
    (onChange ⟨[], [.ok []], [.ok ()]⟩ ⟨[], false, true⟩ =
        (⟨[], [.ok []], [.ok ()]⟩, [.stopLogger], some .configurationChanged) ∧
      (runTicks ⟨[], [.ok []], [.ok ()]⟩
          [[TickEvent.artifact ⟨"img", []⟩ ⟨[], [], []⟩, .deployerConfig, .skaffoldConfig]]).2 =
        .error .configurationChanged) :=
  ⟨⟨rfl, by decide, by decide, by decide⟩,
    reload_priority.1 ⟨[], [.ok []], [.ok ()]⟩ ⟨[], false, true⟩ (by decide),
    reload_priority.2.2 ⟨[], [.ok []], [.ok ()]⟩
      [TickEvent.artifact ⟨"img", []⟩ ⟨[], [], []⟩, .deployerConfig, .skaffoldConfig] []
      (by decide) (by decide)⟩

/-! ## Theorems about tag-rewrite fidelity (claim C2) -/

/-- A successful image-value step returns exactly the substitution the spec
describes for string values. -/
theorem replaceImageValue_eq_spec (repl : List (String × String)) (v v2 : Yaml)
    (h : replaceImageValue repl v = some v2) :
    ∃ s, v = .str s ∧ v2 = .str (specReplaceValue repl s) := by
  cases v with
  | str s =>
      refine ⟨s, rfl, ?_⟩
      rw [specReplaceValue]
      rcases hp : parseReference s with _ | parsed
      · simp [replaceImageValue, hp] at h
        simp [← h]
      · simp only [replaceImageValue, hp] at h
        by_cases hfq : parsed.fullyQualified = true
        · rw [if_pos hfq] at h
          simp at h
          simp [hfq, ← h]
        · rw [if_neg hfq] at h
          rcases ht : lookupTag repl parsed.baseName with _ | tag
          · rw [ht] at h
            simp at h
            simp [hfq, ht, ← h]
          · rw [ht] at h
            simp at h
            simp [hfq, ht, ← h]
  | intVal n => simp [replaceImageValue] at h
  | boolVal b => simp [replaceImageValue] at h
  | null => simp [replaceImageValue] at h
  | seq items => simp [replaceImageValue] at h
  | map entries => simp [replaceImageValue] at h

/-- Unfolding of the spec walk on a mapping entry whose string key is not the
image key. -/
theorem specMap_cons_other (repl : List (String × String)) (ks : String) (v : Yaml)
    (tl : YamlMap) (hk : ks ≠ "image") :
    specMap repl (.cons (.str ks) v tl) =
      .cons (.str ks) (specYaml repl v) (specMap repl tl) := by
  rw [specMap.eq_def]
  split <;> simp_all

mutual

/-- A successful code walk computes exactly the spec walk, on nodes. -/
theorem replaceYaml_eq_spec (repl : List (String × String)) :
    (y : Yaml) → (y2 : Yaml) → replaceYaml repl y = some y2 → y2 = specYaml repl y
  | .str s, y2, h => by
      simp [replaceYaml] at h
      simp [specYaml, ← h]
  | .intVal n, y2, h => by
      simp [replaceYaml] at h
      simp [specYaml, ← h]
  | .boolVal b, y2, h => by
      simp [replaceYaml] at h
      simp [specYaml, ← h]
  | .null, y2, h => by
      simp [replaceYaml] at h
      simp [specYaml, ← h]
  | .seq items, y2, h => by
      simp only [replaceYaml, Option.map_eq_some'] at h
      rcases h with ⟨l2, hl, h2⟩
      rw [← h2, specYaml, replaceList_eq_spec repl items l2 hl]
  | .map entries, y2, h => by
      simp only [replaceYaml, Option.map_eq_some'] at h
      rcases h with ⟨m2, hm, h2⟩
      rw [← h2, specYaml, replaceMap_eq_spec repl entries m2 hm]
termination_by structural y => y

/-- A successful code walk computes exactly the spec walk, on sequences. -/
theorem replaceList_eq_spec (repl : List (String × String)) :
    (l : YamlList) → (l2 : YamlList) → replaceList repl l = some l2 → l2 = specList repl l
  | .nil, l2, h => by
      simp [replaceList] at h
      simp [specList, ← h]
  | .cons hd tl, l2, h => by
      rw [replaceList] at h
      rcases hhd : replaceYaml repl hd with _ | hd2
      · rw [hhd] at h; simp at h
      · rw [hhd] at h
        rcases htl : replaceList repl tl with _ | tl2
        · rw [htl] at h; simp at h
        · rw [htl] at h
          simp at h
          rw [← h, specList, replaceYaml_eq_spec repl hd hd2 hhd,
            replaceList_eq_spec repl tl tl2 htl]
termination_by structural l => l

/-- A successful code walk computes exactly the spec walk, on mappings. -/
theorem replaceMap_eq_spec (repl : List (String × String)) :
    (m : YamlMap) → (m2 : YamlMap) → replaceMap repl m = some m2 → m2 = specMap repl m
  | .nil, m2, h => by
      simp [replaceMap] at h
      simp [specMap, ← h]
  | .cons k v tl, m2, h => by
      cases k with
      | str ks =>
          by_cases hk : ks = "image"
          · subst hk
            rw [replaceMap, if_pos rfl] at h
            rcases hv : replaceImageValue repl v with _ | v2
            · rw [hv] at h; simp at h
            · rw [hv] at h
              rcases htl : replaceMap repl tl with _ | tl2
              · rw [htl] at h; simp at h
              · rw [htl] at h
                simp at h
                rcases replaceImageValue_eq_spec repl v v2 hv with ⟨s, rfl, rfl⟩
                rw [← h, specMap, replaceMap_eq_spec repl tl tl2 htl]
          · rw [replaceMap, if_neg hk] at h
            rcases hv : replaceYaml repl v with _ | v2
            · rw [hv] at h; simp at h
            · rw [hv] at h
              rcases htl : replaceMap repl tl with _ | tl2
              · rw [htl] at h; simp at h
              · rw [htl] at h
                simp at h
                rw [← h, replaceYaml_eq_spec repl v v2 hv,
                  replaceMap_eq_spec repl tl tl2 htl, specMap_cons_other repl ks v tl hk]
      | intVal n => simp [replaceMap] at h
      | boolVal b => simp [replaceMap] at h
      | null => simp [replaceMap] at h
      | seq items => simp [replaceMap] at h
      | map entries => simp [replaceMap] at h
termination_by structural m => m

end

/-- The spec transformation keeps a non-empty parsed document. -/
theorem specTransformDocs_cons_parsed (repl : List (String × String)) (m : YamlMap)
    (rest : List YamlDoc) (hz : m.length ≠ 0) :
    specTransformDocs repl (.parsed m :: rest) =
      specMap repl m :: specTransformDocs repl rest := by
  rw [specTransformDocs, List.filterMap_cons]
  simp [hz, specTransformDocs]

/-- The spec transformation elides an empty document. -/
theorem specTransformDocs_cons_empty (repl : List (String × String)) (m : YamlMap)
    (rest : List YamlDoc) (hz : m.length = 0) :
    specTransformDocs repl (.parsed m :: rest) = specTransformDocs repl rest := by
  rw [specTransformDocs, List.filterMap_cons]
  simp [hz, specTransformDocs]

/-- A successful pass computes exactly the spec transformation of the
document list. -/
theorem replaceImagesAux_eq_spec (repl : List (String × String)) :
    ∀ (l : List YamlDoc) (out : List YamlMap),
      replaceImagesAux repl l = .ok out → out = specTransformDocs repl l := by
  intro l
  induction l with
  | nil =>
      intro out h
      simp [replaceImagesAux] at h
      simp [specTransformDocs, ← h]
  | cons d rest ih =>
      intro out h
      cases d with
      | invalid => simp [replaceImagesAux] at h
      | parsed m =>
          rw [replaceImagesAux] at h
          by_cases hz : m.length = 0
          · rw [if_pos hz] at h
            rw [specTransformDocs_cons_empty repl m rest hz]
            exact ih out h
          · rw [if_neg hz] at h
            rcases hm : replaceMap repl m with _ | m2
            · rw [hm] at h
              simp at h
            · rw [hm] at h
              rcases hrest : replaceImagesAux repl rest with e | ms
              · rw [hrest] at h
                simp [Except.map] at h
              · rw [hrest] at h
                simp only [Except.map, Except.ok.injEq] at h
                rw [← h, specTransformDocs_cons_parsed repl m rest hz,
                  replaceMap_eq_spec repl m m2 hm, ih ms hrest]
  
/-- C2: after a transformation pass that completes, the output is exactly the
spec transformation: every string value under an image key that parses as a
non-fully-qualified reference whose base name has a build result is replaced
by that result tag, and every other image value, and every non-image part of
every document, is unchanged, with empty documents elided. -/
theorem tag_rewrite_fidelity (l : List YamlDoc) (builds : List BuildArtifact)
    (out : List YamlMap) (h : replaceImages l builds = .ok out) :
    out = specTransformDocs (buildReplacements builds) l :=
  replaceImagesAux_eq_spec (buildReplacements builds) l out h

/-- C2 witness: a bare image name that is rewritten and a digest-qualified
image that is left alone. -/
theorem tag_rewrite_fidelity_witness :
    replaceImages
        [.parsed (.cons (.str "image") (.str "myapp") .nil),
          .parsed (.cons (.str "image") (.str "registry/other@sha256:abc") .nil)]
        [⟨"myapp", "myapp:v2"⟩] =
      .ok [.cons (.str "image") (.str "myapp:v2") .nil,
        .cons (.str "image") (.str "registry/other@sha256:abc") .nil] ∧
    ([.cons (.str "image") (.str "myapp:v2") .nil,
        .cons (.str "image") (.str "registry/other@sha256:abc") .nil] : List YamlMap) =
      specTransformDocs (buildReplacements [⟨"myapp", "myapp:v2"⟩])
        [.parsed (.cons (.str "image") (.str "myapp") .nil),
          .parsed (.cons (.str "image") (.str "registry/other@sha256:abc") .nil)] :=
  ⟨by decide,
    tag_rewrite_fidelity
      [.parsed (.cons (.str "image") (.str "myapp") .nil),
        .parsed (.cons (.str "image") (.str "registry/other@sha256:abc") .nil)]
      [⟨"myapp", "myapp:v2"⟩]
      [.cons (.str "image") (.str "myapp:v2") .nil,
        .cons (.str "image") (.str "registry/other@sha256:abc") .nil]
      (by decide)⟩

/-! ## Theorems about transformer totality on well-shaped manifests (claim C5) -/

/-- On a string value the image-key step always succeeds: an unparseable or
fully qualified or unmatched reference is skipped, a hit is substituted. -/
theorem replaceImageValue_str_isSome (repl : List (String × String)) (s : String) :
    (replaceImageValue repl (.str s)).isSome = true := by
  simp only [replaceImageValue]
  rcases hp : parseReference s with _ | parsed
  · simp
  · by_cases hfq : parsed.fullyQualified = true
    · simp [hfq]
    · rcases ht : lookupTag repl parsed.baseName with _ | tag <;> simp [hfq, ht]

mutual

/-- The walk cannot panic on a well-shaped node. -/
theorem replaceYaml_total (repl : List (String × String)) :
    (y : Yaml) → wfYaml y = true → (replaceYaml repl y).isSome = true
  | .str s, _ => by simp [replaceYaml]
  | .intVal n, _ => by simp [replaceYaml]
  | .boolVal b, _ => by simp [replaceYaml]
  | .null, _ => by simp [replaceYaml]
  | .seq items, h => by
      rw [wfYaml] at h
      have h2 := replaceList_total repl items h
      simp only [replaceYaml]
      rcases hl : replaceList repl items with _ | l2
      · rw [hl] at h2; simp at h2
      · simp
  | .map entries, h => by
      rw [wfYaml] at h
      have h2 := replaceMap_total repl entries h
      simp only [replaceYaml]
      rcases hm : replaceMap repl entries with _ | m2
      · rw [hm] at h2; simp at h2
      · simp
termination_by structural y => y

/-- The walk cannot panic on a well-shaped sequence. -/
theorem replaceList_total (repl : List (String × String)) :
    (l : YamlList) → wfList l = true → (replaceList repl l).isSome = true
  | .nil, _ => by simp [replaceList]
  | .cons hd tl, h => by
      simp only [wfList, Bool.and_eq_true] at h
      have h1 := replaceYaml_total repl hd h.1
      have h2 := replaceList_total repl tl h.2
      rw [replaceList]
      rcases hhd : replaceYaml repl hd with _ | hd2
      · rw [hhd] at h1; simp at h1
      · rcases htl : replaceList repl tl with _ | tl2
        · rw [htl] at h2; simp at h2
        · simp [hhd, htl]
termination_by structural l => l

/-- The walk cannot panic on a well-shaped mapping. -/
theorem replaceMap_total (repl : List (String × String)) :
    (m : YamlMap) → wfMap m = true → (replaceMap repl m).isSome = true
  | .nil, _ => by simp [replaceMap]
  | .cons k v tl, h => by
      cases k with
      | str ks =>
          by_cases hk : ks = "image"
          · subst hk
            cases v with
            | str s =>
                have h2 : wfMap tl = true := by simpa [wfMap] using h
                have h1 := replaceImageValue_str_isSome repl s
                rw [replaceMap, if_pos rfl]
                rcases hv : replaceImageValue repl (.str s) with _ | v2
                · rw [hv] at h1; simp at h1
                · rcases htl : replaceMap repl tl with _ | tl2
                  · have h3 := replaceMap_total repl tl h2
                    rw [htl] at h3; simp at h3
                  · simp [hv, htl]
            | intVal n => simp [wfMap] at h
            | boolVal b => simp [wfMap] at h
            | null => simp [wfMap] at h
            | seq items => simp [wfMap] at h
            | map entries => simp [wfMap] at h
          · have hwf : wfYaml v = true ∧ wfMap tl = true := by
              rw [wfMap.eq_def] at h
              split at h
              · simp_all
              · simp_all
              · simp only [Bool.and_eq_true] at h
                simp_all
              · simp_all
            have h1 := replaceYaml_total repl v hwf.1
            have h2 := replaceMap_total repl tl hwf.2
            rw [replaceMap, if_neg hk]
            rcases hv : replaceYaml repl v with _ | v2
            · rw [hv] at h1; simp at h1
            · rcases htl : replaceMap repl tl with _ | tl2
              · rw [htl] at h2; simp at h2
              · simp [hv, htl]
      | intVal n => simp [wfMap] at h
      | boolVal b => simp [wfMap] at h
      | null => simp [wfMap] at h
      | seq items => simp [wfMap] at h
      | map entries => simp [wfMap] at h
termination_by structural m => m

end

/-- A document the pass can always handle: bytes that unmarshal to a mapping
whose keys are strings and whose image values are strings. -/
def docWellShaped : YamlDoc → Bool
  | .parsed m => wfMap m
  | .invalid => false

/-- C5 amended: the pass cannot fail on manifest lists whose documents all
unmarshal to mappings with string keys and string image values; there,
unparseable image references and scalar nodes are skipped and a transformed
list is returned. On other shapes it does fail: an undecodable document is
returned as an error and a non-string image value panics. -/
theorem transformer_total_on_well_shaped (l : List YamlDoc) (builds : List BuildArtifact)
    (h : l.all docWellShaped = true) : ∃ out, replaceImages l builds = .ok out := by
  rw [replaceImages]
  induction l with
  | nil => exact ⟨[], rfl⟩
  | cons d rest ih =>
      simp only [List.all_cons, Bool.and_eq_true] at h
      rcases ih h.2 with ⟨ms, hms⟩
      cases d with
      | invalid => simp [docWellShaped] at h
      | parsed m =>
          have hwf : wfMap m = true := h.1
          rw [replaceImagesAux]
          by_cases hz : m.length = 0
          · rw [if_pos hz]
            exact ⟨ms, hms⟩
          · rw [if_neg hz]
            have htot := replaceMap_total (buildReplacements builds) m hwf
            rcases hm : replaceMap (buildReplacements builds) m with _ | m2
            · rw [hm] at htot
              simp at htot
            · rw [hms]
              exact ⟨m2 :: ms, rfl⟩

/-- C5 witness: a one-document list with a string image value under a string
key, transformed without error. -/
theorem transformer_total_witness :
    (([.parsed (.cons (.str "image") (.str "myapp") .nil)] : List YamlDoc).all
        docWellShaped = true) ∧
    ∃ out, replaceImages [.parsed (.cons (.str "image") (.str "myapp") .nil)]
        [⟨"myapp", "myapp:v2"⟩] = .ok out :=
  ⟨by decide,
    transformer_total_on_well_shaped [.parsed (.cons (.str "image") (.str "myapp") .nil)]
      [⟨"myapp", "myapp:v2"⟩] (by decide)⟩

/-! ## Theorems about idempotence of the transformer (claim C9) -/

/-- Holds of a build result whose tag is itself a fully qualified reference,
as the taggers produce (a digest or an explicit non-latest tag). -/
def tagFullyQualified (b : BuildArtifact) : Bool :=
  match parseReference b.tag with
  | some r => r.fullyQualified
  | none => false

/-- Membership through the fold that builds the replacements table. -/
theorem foldl_cons_mem :
    ∀ (builds : List BuildArtifact) (acc : List (String × String)) (p : String × String),
      p ∈ builds.foldl (fun acc b => (b.imageName, b.tag) :: acc) acc →
      p ∈ acc ∨ ∃ b ∈ builds, p = (b.imageName, b.tag) := by
  intro builds
  induction builds with
  | nil => intro acc p h; exact Or.inl h
  | cons b rest ih =>
      intro acc p h
      rcases ih _ p h with h2 | h2
      · rcases List.mem_cons.mp h2 with h3 | h3
        · exact Or.inr ⟨b, List.mem_cons_self b rest, h3⟩
        · exact Or.inl h3
      · rcases h2 with ⟨b2, hb2, h3⟩
        exact Or.inr ⟨b2, List.mem_cons_of_mem b hb2, h3⟩

/-- Every replacement entry comes from a build result. -/
theorem buildReplacements_mem (builds : List BuildArtifact) (p : String × String)
    (h : p ∈ buildReplacements builds) : ∃ b ∈ builds, p = (b.imageName, b.tag) := by
  rcases foldl_cons_mem builds [] p h with h2 | h2
  · cases h2
  · exact h2

/-- A successful lookup returns the tag of some table entry. -/
theorem lookupTag_mem (repl : List (String × String)) (base tag : String)
    (h : lookupTag repl base = some tag) : ∃ p ∈ repl, p.snd = tag := by
  rw [lookupTag] at h
  rcases hf : repl.find? (fun p => p.fst == base) with _ | p
  · rw [hf] at h; cases h
  · rw [hf] at h
    simp at h
    exact ⟨p, List.mem_of_find?_eq_some hf, h⟩

/-- When every build tag is fully qualified, the image-value step is
idempotent: applying it to its own output changes nothing. -/
theorem replaceImageValue_idem (builds : List BuildArtifact)
    (hfq : builds.all tagFullyQualified = true) (v v2 : Yaml)
    (h : replaceImageValue (buildReplacements builds) v = some v2) :
    replaceImageValue (buildReplacements builds) v2 = some v2 := by
  rcases replaceImageValue_eq_spec _ v v2 h with ⟨s, rfl, rfl⟩
  rcases hp : parseReference s with _ | parsed
  · have hval : specReplaceValue (buildReplacements builds) s = s := by
      simp [specReplaceValue, hp]
    rw [hval]
    simp [replaceImageValue, hp]
  · by_cases hfq2 : parsed.fullyQualified = true
    · have hval : specReplaceValue (buildReplacements builds) s = s := by
        simp [specReplaceValue, hp, hfq2]
      rw [hval]
      simp [replaceImageValue, hp, hfq2]
    · rcases ht : lookupTag (buildReplacements builds) parsed.baseName with _ | tag
      · have hval : specReplaceValue (buildReplacements builds) s = s := by
          simp [specReplaceValue, hp, hfq2, ht]
        rw [hval]
        simp [replaceImageValue, hp, hfq2, ht]
      · have hval : specReplaceValue (buildReplacements builds) s = tag := by
          simp [specReplaceValue, hp, hfq2, ht]
        rw [hval]
        rcases lookupTag_mem _ _ _ ht with ⟨p, hpmem, htag⟩
        rcases buildReplacements_mem builds p hpmem with ⟨b, hb, rfl⟩
        have hb2 := List.all_eq_true.mp hfq b hb
        rw [tagFullyQualified] at hb2
        rcases hpt : parseReference b.tag with _ | r
        · rw [hpt] at hb2; cases hb2
        · rw [hpt] at hb2
          simp at hb2
          simp only at htag
          subst htag
          simp [replaceImageValue, hpt, hb2]

mutual

/-- Idempotence of the code walk on nodes, under fully qualified tags. -/
theorem replaceYaml_idem (builds : List BuildArtifact)
    (hfq : builds.all tagFullyQualified = true) :
    (y y2 : Yaml) → replaceYaml (buildReplacements builds) y = some y2 →
      replaceYaml (buildReplacements builds) y2 = some y2
  | .str s, y2, h => by
      simp [replaceYaml] at h
      simp [replaceYaml, ← h]
  | .intVal n, y2, h => by
      simp [replaceYaml] at h
      simp [replaceYaml, ← h]
  | .boolVal b, y2, h => by
      simp [replaceYaml] at h
      simp [replaceYaml, ← h]
  | .null, y2, h => by
      simp [replaceYaml] at h
      simp [replaceYaml, ← h]
  | .seq items, y2, h => by
      simp only [replaceYaml, Option.map_eq_some'] at h
      rcases h with ⟨l2, hl, h2⟩
      rw [← h2]
      simp [replaceYaml, replaceList_idem builds hfq items l2 hl]
  | .map entries, y2, h => by
      simp only [replaceYaml, Option.map_eq_some'] at h
      rcases h with ⟨m2, hm, h2⟩
      rw [← h2]
      simp [replaceYaml, replaceMap_idem builds hfq entries m2 hm]
termination_by structural y => y

/-- Idempotence of the code walk on sequences, under fully qualified tags. -/
theorem replaceList_idem (builds : List BuildArtifact)
    (hfq : builds.all tagFullyQualified = true) :
    (l l2 : YamlList) → replaceList (buildReplacements builds) l = some l2 →
      replaceList (buildReplacements builds) l2 = some l2
  | .nil, l2, h => by
      simp [replaceList] at h
      simp [replaceList, ← h]
  | .cons hd tl, l2, h => by
      rw [replaceList] at h
      rcases hhd : replaceYaml (buildReplacements builds) hd with _ | hd2
      · rw [hhd] at h; simp at h
      · rw [hhd] at h
        rcases htl : replaceList (buildReplacements builds) tl with _ | tl2
        · rw [htl] at h; simp at h
        · rw [htl] at h
          simp at h
          rw [← h, replaceList]
          simp [replaceYaml_idem builds hfq hd hd2 hhd,
            replaceList_idem builds hfq tl tl2 htl]
termination_by structural l => l

/-- Idempotence of the code walk on mappings, under fully qualified tags. -/
theorem replaceMap_idem (builds : List BuildArtifact)
    (hfq : builds.all tagFullyQualified = true) :
    (m m2 : YamlMap) → replaceMap (buildReplacements builds) m = some m2 →
      replaceMap (buildReplacements builds) m2 = some m2
  | .nil, m2, h => by
      simp [replaceMap] at h
      simp [replaceMap, ← h]
  | .cons k v tl, m2, h => by
      cases k with
      | str ks =>
          by_cases hk : ks = "image"
          · subst hk
            rw [replaceMap, if_pos rfl] at h
            rcases hv : replaceImageValue (buildReplacements builds) v with _ | v2
            · rw [hv] at h; simp at h
            · rw [hv] at h
              rcases htl : replaceMap (buildReplacements builds) tl with _ | tl2
              · rw [htl] at h; simp at h
              · rw [htl] at h
                simp at h
                rw [← h, replaceMap, if_pos rfl]
                simp [replaceImageValue_idem builds hfq v v2 hv,
                  replaceMap_idem builds hfq tl tl2 htl]
          · rw [replaceMap, if_neg hk] at h
            rcases hv : replaceYaml (buildReplacements builds) v with _ | v2
            · rw [hv] at h; simp at h
            · rw [hv] at h
              rcases htl : replaceMap (buildReplacements builds) tl with _ | tl2
              · rw [htl] at h; simp at h
              · rw [htl] at h
                simp at h
                rw [← h, replaceMap, if_neg hk]
                simp [replaceYaml_idem builds hfq v v2 hv,
                  replaceMap_idem builds hfq tl tl2 htl]
      | intVal n => simp [replaceMap] at h
      | boolVal b => simp [replaceMap] at h
      | null => simp [replaceMap] at h
      | seq items => simp [replaceMap] at h
      | map entries => simp [replaceMap] at h
termination_by structural m => m

end

/-- The walk preserves the entry count of a mapping. -/
theorem replaceMap_length (repl : List (String × String)) :
    (m m2 : YamlMap) → replaceMap repl m = some m2 → m2.length = m.length
  | .nil, m2, h => by
      simp [replaceMap] at h
      simp [← h]
  | .cons k v tl, m2, h => by
      cases k with
      | str ks =>
          by_cases hk : ks = "image"
          · subst hk
            rw [replaceMap, if_pos rfl] at h
            rcases hv : replaceImageValue repl v with _ | v2
            · rw [hv] at h; simp at h
            · rw [hv] at h
              rcases htl : replaceMap repl tl with _ | tl2
              · rw [htl] at h; simp at h
              · rw [htl] at h
                simp at h
                rw [← h, YamlMap.length, YamlMap.length,
                  replaceMap_length repl tl tl2 htl]
          · rw [replaceMap, if_neg hk] at h
            rcases hv : replaceYaml repl v with _ | v2
            · rw [hv] at h; simp at h
            · rw [hv] at h
              rcases htl : replaceMap repl tl with _ | tl2
              · rw [htl] at h; simp at h
              · rw [htl] at h
                simp at h
                rw [← h, YamlMap.length, YamlMap.length,
                  replaceMap_length repl tl tl2 htl]
      | intVal n => simp [replaceMap] at h
      | boolVal b => simp [replaceMap] at h
      | null => simp [replaceMap] at h
      | seq items => simp [replaceMap] at h
      | map entries => simp [replaceMap] at h
termination_by structural m => m

/-- Idempotence of the pass over a document list, under fully qualified
tags. -/
theorem replaceImagesAux_idem (builds : List BuildArtifact)
    (hfq : builds.all tagFullyQualified = true) :
    ∀ (l : List YamlDoc) (out : List YamlMap),
      replaceImagesAux (buildReplacements builds) l = .ok out →
      replaceImagesAux (buildReplacements builds) (out.map YamlDoc.parsed) = .ok out := by
  intro l
  induction l with
  | nil =>
      intro out h
      simp [replaceImagesAux] at h
      subst h
      rfl
  | cons d rest ih =>
      intro out h
      cases d with
      | invalid => simp [replaceImagesAux] at h
      | parsed m =>
          rw [replaceImagesAux] at h
          by_cases hz : m.length = 0
          · rw [if_pos hz] at h
            exact ih out h
          · rw [if_neg hz] at h
            rcases hm : replaceMap (buildReplacements builds) m with _ | m2
            · rw [hm] at h; simp at h
            · rw [hm] at h
              rcases hrest : replaceImagesAux (buildReplacements builds) rest with e | ms
              · rw [hrest] at h; simp [Except.map] at h
              · rw [hrest] at h
                simp only [Except.map, Except.ok.injEq] at h
                rw [← h, List.map_cons, replaceImagesAux]
                have hlen := replaceMap_length (buildReplacements builds) m m2 hm
                rw [if_neg (by rw [hlen]; exact hz),
                  replaceMap_idem builds hfq m m2 hm, ih ms hrest]
                rfl

/-- C9 amended: when every build tag is itself fully qualified, as produced
tags are, a second transformation pass over the output of a first pass
returns that output unchanged. Without that proviso idempotence fails, as a
replacement set sending a to b and b to c shows. -/
theorem transform_idempotent_on_qualified_tags (l : List YamlDoc)
    (builds : List BuildArtifact) (out : List YamlMap)
    (hfq : builds.all tagFullyQualified = true)
    (h : replaceImages l builds = .ok out) :
    replaceImages (out.map YamlDoc.parsed) builds = .ok out :=
  replaceImagesAux_idem builds hfq l out h

/-- C9 witness: a bare image rewritten to an explicitly tagged reference,
over which a second pass is the identity. -/
theorem transform_idempotent_witness :
    (([⟨"myapp", "myapp:v2"⟩] : List BuildArtifact).all tagFullyQualified = true ∧
      replaceImages [.parsed (.cons (.str "image") (.str "myapp") .nil)]
          [⟨"myapp", "myapp:v2"⟩] =
        .ok [.cons (.str "image") (.str "myapp:v2") .nil]) ∧
    replaceImages
        (([.cons (.str "image") (.str "myapp:v2") .nil] : List YamlMap).map YamlDoc.parsed)
        [⟨"myapp", "myapp:v2"⟩] =
      .ok [.cons (.str "image") (.str "myapp:v2") .nil] :=
  ⟨⟨by decide, by decide⟩,
    transform_idempotent_on_qualified_tags
      [.parsed (.cons (.str "image") (.str "myapp") .nil)] [⟨"myapp", "myapp:v2"⟩]
      [.cons (.str "image") (.str "myapp:v2") .nil] (by decide) (by decide)⟩

/-! ## Theorems about port-forward replacement (claim C6) -/

/-- A store under a key is observed by the next load of that key. -/
theorem mapLoad_mapStore_self (m : List (String × PortForwardEntry)) (k : String)
    (v : PortForwardEntry) : mapLoad (mapStore m k v) k = some v := by
  rw [mapStore, mapLoad, List.find?_append]
  have hnone : (m.filter (fun p => !(p.fst == k))).find? (fun p => p.fst == k) = none := by
    apply List.find?_eq_none.mpr
    intro p hp
    have h2 := (List.mem_filter.mp hp).2
    simp at h2 ⊢
    exact h2
  rw [hnone]
  simp

/-- C6 amended: the code guarantees replacement discipline only for events
strictly newer than the stored entry. In a state whose spawn log is fresh and
where the only live forward for the key is the stored entry, an event whose
resource version strictly exceeds the stored one terminates the old
subprocess before starting the new one, leaves the new subprocess as the only
live forward for the key, and stores an entry whose resource version rose to
the event's. An event with an equal or older resource version instead starts
a second forward without terminating the first, refuting the claim as
stated. -/
theorem portForward_replacement_guarantee (st : PFState) (pod : Pod) (cname : String)
    (port : Nat) (prev : PortForwardEntry)
    (hpod : pod.containers = [⟨cname, [port]⟩])
    (hload : mapLoad st.forwardedPods (entryKey cname port) = some prev)
    (hrv : prev.resourceVersion < pod.resourceVersion)
    (hfresh : ∀ p ∈ st.spawned, p.snd < st.nextPid)
    (hprev : prev.pid < st.nextPid)
    (halive : ∀ p ∈ st.spawned, p.fst = entryKey cname port →
        (p.snd ∈ st.alive ↔ p.snd = prev.pid)) :
    (∀ q, q ∈ alivePidsForKey (portForwardPod st pod) (entryKey cname port) ↔
        q = st.nextPid) ∧
    prev.pid ∉ (portForwardPod st pod).alive ∧
    mapLoad (portForwardPod st pod).forwardedPods (entryKey cname port) =
      some ⟨pod.resourceVersion, pod.name, cname, port, st.nextPid⟩ := by
  have hres : portForwardPod st pod =
      ⟨mapStore st.forwardedPods (entryKey cname port)
          ⟨pod.resourceVersion, pod.name, cname, port, st.nextPid⟩,
        (st.alive.filter (fun pid => pid ≠ prev.pid)) ++ [st.nextPid],
        st.nextPid + 1,
        st.spawned ++ [(entryKey cname port, st.nextPid)]⟩ := by
    rw [portForwardPod, hpod]
    simp only [List.foldl_cons, List.foldl_nil]
    rw [portForwardOne]
    simp only [hload]
    rw [if_pos hrv]
    rfl
  rw [hres]
  refine ⟨?_, ?_, mapLoad_mapStore_self _ _ _⟩
  · intro q
    constructor
    · intro hq
      simp only [alivePidsForKey, List.mem_map, List.mem_filter,
        Bool.and_eq_true] at hq
      rcases hq with ⟨p, ⟨hpmem, hpk, hpalive⟩, hpq⟩
      rcases List.mem_append.mp hpmem with hpold | hpnew
      · exfalso
        have hkey : p.fst = entryKey cname port := by simpa using hpk
        have hcont : p.snd ∈ st.alive.filter (fun pid => pid ≠ prev.pid) ++ [st.nextPid] := by
          simpa [List.contains_iff_exists_mem_beq] using hpalive
        rcases List.mem_append.mp hcont with hc | hc
        · have hc2 := List.mem_filter.mp hc
          have := (halive p hpold hkey).mp hc2.1
          simp [this] at hc2
        · have : p.snd = st.nextPid := by simpa using hc
          have := hfresh p hpold
          omega
      · have : p = (entryKey cname port, st.nextPid) := by simpa using hpnew
        rw [this] at hpq
        exact hpq.symm
    · intro hq
      subst hq
      simp only [alivePidsForKey, List.mem_map, List.mem_filter, Bool.and_eq_true]
      refine ⟨(entryKey cname port, st.nextPid), ⟨List.mem_append_right _ (by simp), by simp, ?_⟩, rfl⟩
      simp [List.contains_iff_exists_mem_beq]
  · intro hmem
    rcases List.mem_append.mp hmem with hc | hc
    · have hc2 := List.mem_filter.mp hc
      simp at hc2
    · have : prev.pid = st.nextPid := by simpa using hc
      omega

/-- C6 witness: a stored generation-5 forward replaced by a generation-6
event for the same container port. -/
theorem portForward_replacement_witness :
    ((⟨"p", 6, [⟨"c", [80]⟩]⟩ : Pod).containers = [⟨"c", [80]⟩] ∧
      mapLoad ([("c-80", ⟨5, "p", "c", 80, 0⟩)] :
          List (String × PortForwardEntry)) (entryKey "c" 80) =
        some ⟨5, "p", "c", 80, 0⟩ ∧
      (5 : Nat) < 6 ∧
      (∀ p ∈ ([("c-80", 0)] : List (String × Nat)), p.snd < 1) ∧
      (0 : Nat) < 1 ∧
      (∀ p ∈ ([("c-80", 0)] : List (String × Nat)), p.fst = entryKey "c" 80 →
        (p.snd ∈ ([0] : List Nat) ↔ p.snd = 0))) ∧
    ((∀ q, q ∈ alivePidsForKey
          (portForwardPod ⟨[("c-80", ⟨5, "p", "c", 80, 0⟩)], [0], 1, [("c-80", 0)]⟩
            ⟨"p", 6, [⟨"c", [80]⟩]⟩) (entryKey "c" 80) ↔ q = 1) ∧
      (0 : Nat) ∉ (portForwardPod ⟨[("c-80", ⟨5, "p", "c", 80, 0⟩)], [0], 1, [("c-80", 0)]⟩
          ⟨"p", 6, [⟨"c", [80]⟩]⟩).alive ∧
      mapLoad (portForwardPod ⟨[("c-80", ⟨5, "p", "c", 80, 0⟩)], [0], 1, [("c-80", 0)]⟩
          ⟨"p", 6, [⟨"c", [80]⟩]⟩).forwardedPods (entryKey "c" 80) =
        some ⟨6, "p", "c", 80, 1⟩) :=
  ⟨⟨rfl, by decide, by decide, by decide, by decide, by decide⟩,
    portForward_replacement_guarantee ⟨[("c-80", ⟨5, "p", "c", 80, 0⟩)], [0], 1, [("c-80", 0)]⟩
      ⟨"p", 6, [⟨"c", [80]⟩]⟩ "c" 80 ⟨5, "p", "c", 80, 0⟩ rfl (by decide) (by decide)
      (by decide) (by decide) (by decide)⟩

end Skaffold
